import Mathlib

/-!
# Verification of the Parameter-File Association Engine

Shallow embedding, in Lean 4, of the parameter-file association subsystem of the
`vscode-azurearmtools` extension (files `src/parameterFiles.ts`,
`src/resetGlobalState.ts`, together with the historical variant
`src/parametersFiles.ts`).

Modelling conventions:

* JavaScript strings are modelled as Lean `String` (a wrapper around `List Char`);
  the string operations used by the source (`startsWith`, `toLowerCase`,
  `includes`, `length`) are modelled over the underlying character lists.
* The Node `path` module (an external library of the source) is modelled in its
  posix variant (`isWin32` is modelled as `false`): separators are `'/'` and no
  case folding happens in `normalizePath`.  The model covers paths without
  trailing separators, which is the shape of every `Uri.fsPath` the source
  manipulates.
* The VS Code configuration store (an external collaborator) is modelled as two
  scope slots (user-global and workspace).  Reading a setting yields the
  workspace value combined over the user value, object settings being merged
  key-by-key with workspace entries winning — exactly the behaviour the source
  itself documents at `parameterFiles.ts` lines 375-378.
* File I/O is modelled by passing the directory listing / stream chunks /
  workspace membership in explicitly as data.
-/

set_option maxRecDepth 100000

namespace ArmTools

/-! ## Node `path` primitives used by the name heuristic -/

/-- Splits a character list at `'/'` separators (the posix path separator),
keeping empty segments, as `"a//b".split("/")` would. -/
def splitSegs : List Char → List (List Char)
  | [] => [[]]
  | c :: rest =>
    if c = '/' then [] :: splitSegs rest
    else
      match splitSegs rest with
      | [] => [[c]]
      | s :: ss => (c :: s) :: ss

/-- Models posix `path.basename` on paths that may carry trailing separators:
trailing `'/'` characters are dropped, then everything after the last `'/'` is
returned. -/
def basename (p : String) : String :=
  let cs := (p.data.reverse.dropWhile (fun c => c == '/')).reverse
  ⟨(cs.reverse.takeWhile (fun c => c != '/')).reverse⟩

/-- Models posix `path.extname`: the suffix of the basename starting at its last
dot, except that a dot in first position (hidden files such as `.gitignore`)
and the special name `..` yield the empty extension. -/
def extname (p : String) : String :=
  let b := (basename p).data
  if '.' ∈ b then
    let after := (b.reverse.takeWhile (fun c => c != '.')).reverse
    let j := b.length - after.length - 1
    if j = 0 then "" else if b = ['.', '.'] then "" else ⟨b.drop j⟩
  else ""

/-- Models JavaScript `String.prototype.toLowerCase` on the ASCII range (the
range every path and extension in this subsystem lives in), by mapping
`Char.toLower` over the characters. -/
def jsToLowerCase (s : String) : String := ⟨s.data.map Char.toLower⟩

/-! ## `parameterFiles.ts`: the name heuristic -/

/-- Embeds `hasSupportedParamFileExtension` (`parameterFiles.ts` 427-430): the
extension, lower-cased, must be `.json` or `.jsonc`. -/
def hasSupportedParamFileExtension (filePath : String) : Bool :=
  let extension := jsToLowerCase (extname filePath)
  extension == ".json" || extension == ".jsonc"

/-- Embeds `removeAllExtensions` (`parameterFiles.ts` 263-265):
`fileName.replace(/\.[^.]+$/, '')`.  The regex matches one final dot followed by
one or more non-dot characters, so — despite the function's name — only the
*last* extension is removed, and a name ending in a dot is left unchanged. -/
def removeAllExtensions (fileName : String) : String :=
  let cs := fileName.data
  let after := cs.reverse.takeWhile (fun c => c != '.')
  if '.' ∈ cs ∧ after ≠ [] then ⟨cs.take (cs.length - after.length - 1)⟩
  else fileName

/-- Embeds `mayBeMatchingParamFile` (`parameterFiles.ts` 252-261).
`baseParamsName.startsWith(baseTemplateName)` is modelled as a character-list
prefix test. -/
def mayBeMatchingParamFile (templateFileName paramFileName : String) : Bool :=
  if ¬ hasSupportedParamFileExtension paramFileName then false
  else
    let baseTemplateName := jsToLowerCase (removeAllExtensions (basename templateFileName))
    let baseParamsName := jsToLowerCase (removeAllExtensions (basename paramFileName))
    baseTemplateName.data.isPrefixOf baseParamsName.data

/-- Modelled from the spec (§4.2): the stem with **all** extensions stripped,
"not just the last" — the single-extension strip is iterated to a fixed point
(the fuel `s.length` suffices since each successful strip shortens the name). -/
def removeAllExtensionsIter : Nat → String → String
  | 0, s => s
  | n + 1, s =>
    let s2 := removeAllExtensions s
    if s2 = s then s else removeAllExtensionsIter n s2

/-- Modelled from the spec (§4.2, §8): `isLikelyMatch(T, C)` is true iff `C` has
a supported extension and `stem(C)` (all extensions stripped, lower-cased)
starts with `stem(T)` (same normalization). -/
def specIsLikelyMatch (templateFileName paramFileName : String) : Bool :=
  hasSupportedParamFileExtension paramFileName &&
    (jsToLowerCase (removeAllExtensionsIter templateFileName.data.length
        (basename templateFileName))).data.isPrefixOf
      (jsToLowerCase (removeAllExtensionsIter paramFileName.data.length
        (basename paramFileName))).data

/-! ## `parameterFiles.ts`: the content sniffer -/

/-- Models JavaScript `String.prototype.includes`: `needle` occurs as a
contiguous substring of the haystack. -/
def occursIn (needle : List Char) : List Char → Bool
  | [] => needle.isPrefixOf []
  | c :: rest => needle.isPrefixOf (c :: rest) || occursIn needle rest

/-- Modelled from the spec (§6): the fixed literal schema marker searched for by
`containsParamsSchema` (`schemas.ts`, which is not among the provided sources;
the spec specifies "a fixed literal substring search"). -/
def paramsSchemaMarker : String := "deploymentParameters.json"

/-- Modelled from the spec (§6): `containsParamsSchema` performs a fixed literal
substring search for the parameters-schema marker. -/
def containsParamsSchema (txt : String) : Bool :=
  occursIn paramsSchemaMarker.data txt.data

/-- Embeds the constant at `parameterFiles.ts` line 18. -/
def readAtMostBytesToFindParamsSchema : Nat := 4 * 1024

/-- Helper for `doesFileContainString`: the accumulated `content` grows by one
stream chunk per `data` event and is tested after every chunk; reaching the end
of the stream resolves `false`. -/
def doesFileContainStringAux (content : String) : List String → Bool
  | [] => false
  | chunk :: rest =>
    let content2 := content ++ chunk
    if containsParamsSchema content2 then true
    else doesFileContainStringAux content2 rest

/-- Embeds `doesFileContainString` (`parameterFiles.ts` 224-244).  The file is
modelled by the list of chunks its read stream delivers.  Exactly as in the
source, the `matches` parameter (here `matchesPred`, since `matches` is a Lean
keyword) and the `maxBytesToRead` parameter are accepted but never consulted:
the `data` handler tests `containsParamsSchema` directly and no byte count is
ever compared against `maxBytesToRead`. -/
def doesFileContainString (chunks : List String) (matchesPred : String → Bool)
    (maxBytesToRead : Nat) : Bool :=
  doesFileContainStringAux "" chunks

/-- Embeds `isParameterFile` (`parameterFiles.ts` 208-222). -/
def isParameterFile (filePath : String) (chunks : List String) : Bool :=
  if ¬ hasSupportedParamFileExtension filePath then false
  else doesFileContainString chunks containsParamsSchema readAtMostBytesToFindParamsSchema

/-! ## Node `path` primitives used by the association store

`path.normalize`, `path.dirname`, `path.resolve` and `path.relative` (posix
variants) are modelled via segment lists. -/

/-- A path string is absolute iff it starts with the separator. -/
def isAbsolute (p : String) : Bool :=
  match p.data with
  | '/' :: _ => true
  | _ => false

/-- Joins segments with `'/'` separators (no leading or trailing separator). -/
def joinSegs : List (List Char) → List Char
  | [] => []
  | [s] => s
  | s :: t :: rest => s ++ '/' :: joinSegs (t :: rest)

/-- An absolute path from its segments: `joinAbs ["a","b"] = "/a/b"`,
`joinAbs [] = "/"`. -/
def joinAbs (l : List (List Char)) : List Char := '/' :: joinSegs l

/-- Normalization of the segments of an *absolute* path: empty and `.` segments
vanish, `..` removes the previous segment (or is dropped at the root), other
segments are kept in order. -/
def normA (acc : List (List Char)) : List (List Char) → List (List Char)
  | [] => acc
  | s :: rest =>
    if s = [] ∨ s = ['.'] then normA acc rest
    else if s = ['.', '.'] then normA acc.dropLast rest
    else normA (acc ++ [s]) rest

/-- Normalization of the segments of a *relative* path: like `normA` except
that leading `..` segments (with nothing left to cancel) are kept. -/
def normRel (acc : List (List Char)) : List (List Char) → List (List Char)
  | [] => acc
  | s :: rest =>
    if s = [] ∨ s = ['.'] then normRel acc rest
    else if s = ['.', '.'] then
      if acc = [] ∨ acc.getLast? = some ['.', '.'] then normRel (acc ++ [s]) rest
      else normRel acc.dropLast rest
    else normRel (acc ++ [s]) rest

/-- Models posix `path.normalize` (on paths without trailing separators). -/
def pathNormalize (p : String) : String :=
  if isAbsolute p then ⟨joinAbs (normA [] (splitSegs p.data))⟩
  else
    match normRel [] (splitSegs p.data) with
    | [] => "."
    | l => ⟨joinSegs l⟩

/-- Models posix `path.dirname` (on paths without trailing separators):
everything before the last separator, `"/"` when the last separator leads, `"."`
when there is none. -/
def dirnameStr (p : String) : String :=
  let cs := p.data
  if '/' ∈ cs then
    let pre := ((cs.reverse.dropWhile (fun c => c != '/')).reverse).dropLast
    if pre = [] then "/" else ⟨pre⟩
  else "."

/-- Models posix `path.resolve d r` for an absolute base directory `d` (the only
way the source calls it): an absolute `r` is normalized as is, otherwise `r` is
appended to `d` and the whole is normalized. -/
def pathResolve (d r : String) : String :=
  if isAbsolute r then pathNormalize r
  else pathNormalize ⟨d.data ++ '/' :: r.data⟩

/-- How many leading segments two segment lists share. -/
def commonPrefixLen : List (List Char) → List (List Char) → Nat
  | a :: as, b :: bs => if a = b then commonPrefixLen as bs + 1 else 0
  | _, _ => 0

/-- Models posix `path.relative f t` for absolute `f` and `t` (the only way the
source calls it): both are normalized, the shared leading segments are dropped,
and one `..` per remaining `f` segment precedes the remaining `t` segments. -/
def pathRelative (f t : String) : String :=
  let fSegs := normA [] (splitSegs f.data)
  let tSegs := normA [] (splitSegs t.data)
  let c := commonPrefixLen fSegs tSegs
  ⟨joinSegs (List.replicate (fSegs.length - c) ['.', '.'] ++ tSegs.drop c)⟩

/-- Embeds `normalizePath` (`parameterFiles.ts` 165-178) for string input, with
`isWin32` modelled as `false` (posix model, no case folding): `undefined` on an
empty (falsy) path, `path.normalize` otherwise. -/
def normalizePath (filePath : String) : Option String :=
  if filePath = "" then none else some (pathNormalize filePath)

/-! ## The association store (`parameterFiles.ts` 362-425)

The VS Code configuration (an external collaborator) is modelled by the two
scope slots the source touches: the user-global value (read through
`inspect(...).globalValue`, written through `update(..., ConfigurationTarget.Global)`)
and the workspace value.  A slot holds `undefined`, a non-object JSON value, or
a JSON object whose entries are string keys mapped to a string or to some
non-string value — the three shapes the source's `typeof` tests distinguish. -/

/-- A value stored under a key of the mapping object: the source only ever
distinguishes strings (`typeof paramFiles[fileNameKey] === 'string'`) from
everything else. -/
inductive EntryVal where
  | str (s : String)
  | nonString
deriving DecidableEq

/-- A JSON object as JavaScript sees it: own properties in insertion order. -/
abbrev SettingObj := List (String × EntryVal)

/-- The value of the `parameterFiles` setting in one configuration scope. -/
inductive SettingVal where
  | unset
  | nonObject
  | obj (m : SettingObj)
deriving DecidableEq

/-- The two configuration scopes the source reads and writes. -/
structure ConfigState where
  globalVal : SettingVal
  workspaceVal : SettingVal
deriving DecidableEq

/-- First value stored under an exactly-equal key, in entry order. -/
def lookupKey (m : SettingObj) (k : String) : Option EntryVal :=
  (m.find? (fun kv => kv.1 == k)).map (fun kv => kv.2)

/-- Combination of the user-global and workspace values of an object setting:
per the source's own comment (`parameterFiles.ts` 375-376), "vscode combines
the two objects, with workspace settings overriding the user settings".
Workspace values win key-by-key; workspace-only keys follow the user keys. -/
def mergeObjs (g w : SettingObj) : SettingObj :=
  g.map (fun kv => (kv.1, (lookupKey w kv.1).getD kv.2)) ++
    w.filter (fun kv => (lookupKey g kv.1).isNone)

/-- The effective value `workspace.getConfiguration(prefix).get(key)` returns:
the workspace value when set (merged with the user value when both are
objects), else the user-global value. -/
def mergedGet (cs : ConfigState) : SettingVal :=
  match cs.workspaceVal, cs.globalVal with
  | .obj w, .obj g => .obj (mergeObjs g w)
  | .obj w, _ => .obj w
  | .nonObject, _ => .nonObject
  | .unset, g => g

/-- The loop body of `findMappedParamFileForTemplate` (`parameterFiles.ts`
368-382): every entry whose normalized key equals the normalized template path
overwrites `paramFile` — provided its value is a string — with the value
resolved against the template's folder (or with `undefined` if the resolved
path is falsy); the last matching entry wins. -/
def findLoop (ntp : Option String) (dir : String) :
    Option String → SettingObj → Option String
  | acc, [] => acc
  | acc, (k, v) :: rest =>
    findLoop ntp dir
      (if normalizePath k = ntp then
        match v with
        | .str s =>
          let resolvedPath := pathResolve dir s
          if resolvedPath = "" then none else some resolvedPath
        | .nonString => acc
      else acc) rest

/-- Embeds `findMappedParamFileForTemplate` (`parameterFiles.ts` 362-390).
The `typeof paramFiles === "object"` guard fails for an unset setting and for a
non-object value, yielding `undefined`. -/
def findMappedParamFileForTemplate (cs : ConfigState) (templateFileUri : String) :
    Option String :=
  match mergedGet cs with
  | .obj paramFiles =>
    findLoop (normalizePath templateFileUri) (dirnameStr templateFileUri) none paramFiles
  | _ => none

/-- Embeds `getFriendlyPathToParamFile` (`parameterFiles.ts` 145-152).
`workspace.getWorkspaceFolder` (external) is modelled by the predicate
`inWorkspace`: inside a workspace folder the path relative to the template's
folder is used, otherwise the absolute path. -/
def getFriendlyPathToParamFile (inWorkspace : String → Bool)
    (templateUri paramFileUri : String) : String :=
  if inWorkspace paramFileUri then
    pathRelative (dirnameStr templateUri) paramFileUri
  else paramFileUri

/-- Embeds `setMappedParamFileForTemplate` (`parameterFiles.ts` 392-425).
When the inspected user-global value is not an object the function returns
without writing.  Otherwise entries whose normalized key equals the normalized
template path are pruned, the new entry (keyed by the raw template path, valued
by the friendly path) is appended when a parameter file is given, and the
resulting map is written to the user-global scope. -/
def setMappedParamFileForTemplate (inWorkspace : String → Bool) (cs : ConfigState)
    (templateUri : String) (paramFileUri : Option String) : ConfigState :=
  let normalizedTemplatePath := normalizePath templateUri
  match cs.globalVal with
  | .obj map =>
    let newMap := map.filter (fun kv => decide (¬ normalizePath kv.1 = normalizedTemplatePath))
    let newMap2 :=
      match paramFileUri with
      | some p => newMap ++ [(templateUri, .str (getFriendlyPathToParamFile inWorkspace templateUri p))]
      | none => newMap
    { cs with globalVal := .obj newMap2 }
  | _ => cs

/-! ## The reconciliation workflow (`parameterFiles.ts` 270-357) -/

/-- Embeds `IPossibleParamFile` (`parameterFiles.ts` 24-28); `friendlyPath` is
presentation-only and omitted, `path` is the candidate's `uri.fsPath`. -/
structure IPossibleParamFile where
  path : String
  isCloseNameMatch : Bool
deriving DecidableEq

/-- The comparator the source passes to `closeMatches.sort` at
`parameterFiles.ts` 311: the arrow `pf => -pf.uri.fsPath.length` is called by
`Array.prototype.sort` with *two* arguments and ignores the second, returning
minus the length of the **first** argument's path. -/
def closestMatchComparator (a b : IPossibleParamFile) : Int :=
  -(Int.ofNat a.path.length)

/-- One insertion step of the sort model: the new element moves left past every
element `y` (scanning from the right) with `cmp e y < 0`.  Operates on the
reversed accumulator. -/
def v8InsertAux (cmp : α → α → Int) (e : α) : List α → List α
  | [] => [e]
  | y :: ys => if cmp e y < 0 then y :: v8InsertAux cmp e ys else e :: y :: ys

/-- Models `Array.prototype.sort` as V8 (Node's engine) executes it on the
short arrays this subsystem sorts: elements are inserted left-to-right, each
moving left while the comparator declares it smaller than its left neighbour.
For the comparator above — which ignores its second argument and is negative on
every nonempty path — this agrees with V8's binary insertion (every element
moves to the front, reversing the array). -/
def jsSort (cmp : α → α → Int) (l : List α) : List α :=
  l.foldl (fun acc e => (v8InsertAux cmp e acc.reverse).reverse) []

/-- Embeds the closest-match choice at `parameterFiles.ts` 310-311:
`closeMatches.length > 0 ? closeMatches.sort(pf => -pf.uri.fsPath.length)[0] : undefined`. -/
def chooseClosestMatch (closeMatches : List IPossibleParamFile) :
    Option IPossibleParamFile :=
  if closeMatches.length > 0 then (jsSort closestMatchComparator closeMatches).head?
  else none

/-- The user's reaction to the association prompt: one of the three buttons, or
dismissal of the prompt (which `ext.ui.showWarningMessage` surfaces by throwing
`UserCancelledError`, so that nothing after the prompt runs). -/
inductive UserResponse where
  | yes
  | no
  | another
  | cancel
deriving DecidableEq

/-- The external inputs of one workflow run: the candidate files
`findSuggestedParameterFiles` would discover, the user's response if a prompt
is shown, and the workspace-membership predicate. -/
structure Env where
  suggestions : List IPossibleParamFile
  response : UserResponse
  inWorkspace : String → Bool

/-- The mutable stores the workflow touches: the session-scoped
`_filesToIgnoreThisSession` set, the configuration, the persisted
`dontAskAboutParamFiles` global-state list (read with default `[]`), and the
`checkForMatchingParamFiles` setting. -/
structure AppState where
  session : List String
  config : ConfigState
  dontAskFiles : List String
  checkSetting : Bool
deriving DecidableEq

/-- Result of one workflow run: the stores afterwards, and whether the
association prompt was shown. -/
structure StepResult where
  state : AppState
  prompted : Bool
deriving DecidableEq

/-- The session key `normalizePath(templatPath)!` (the non-null assertion holds
because a file-backed document's `fsPath` is nonempty). -/
def sessionKey (docPath : String) : String := (normalizePath docPath).getD ""

/-- The part of `considerQueryingForParameterFile` inside
`callWithTelemetryAndErrorHandling` (`parameterFiles.ts` 292-356), entered with
the session set already updated: bail out if the setting is off or a mapping
already resolves; bail out if the raw template path is in the persisted
don't-ask list; find the close matches and bail out if none; otherwise prompt.
On *yes* the store is written; on *no* only an informational message is shown
(nothing is added to the don't-ask list); on *choose another* a separate
command is launched (no direct store change here); on *cancel* the thrown
`UserCancelledError` skips the whole `switch`. -/
def considerQueryingCore (env : Env) (st1 : AppState) (docPath : String) : StepResult :=
  if ¬ st1.checkSetting ∨ (findMappedParamFileForTemplate st1.config docPath).isSome then
    ⟨st1, false⟩
  else if docPath ∈ st1.dontAskFiles then ⟨st1, false⟩
  else
    match chooseClosestMatch (env.suggestions.filter (fun pf => pf.isCloseNameMatch)) with
    | none => ⟨st1, false⟩
    | some closestMatch =>
      match env.response with
      | .yes =>
        ⟨{ st1 with
            config := setMappedParamFileForTemplate env.inWorkspace st1.config docPath
              (some closestMatch.path) }, true⟩
      | _ => ⟨st1, true⟩

/-- Embeds `considerQueryingForParameterFile` (`parameterFiles.ts` 270-357):
non-file documents are ignored; a template already in the session set is a
no-op; otherwise the session set is extended *before* anything else happens and
the core runs. -/
def considerQueryingForParameterFile (env : Env) (st : AppState)
    (scheme docPath : String) : StepResult :=
  if scheme ≠ "file" then ⟨st, false⟩
  else if sessionKey docPath ∈ st.session then ⟨st, false⟩
  else considerQueryingCore env { st with session := sessionKey docPath :: st.session } docPath

/-! ## The manual-selection quick-pick comparator (`parameterFiles.ts` 68-93) -/

/-- An item of the quick-pick list built by `selectParameterFile`: the synthetic
"None" and "Browse..." entries carry `data: undefined`; every other item wraps
a candidate. -/
inductive QPItem where
  | noneItem
  | browseItem
  | candItem (pf : IPossibleParamFile)
deriving DecidableEq

/-- `item.data` — `undefined` for the two synthetic entries. -/
def qpData : QPItem → Option IPossibleParamFile
  | .candItem pf => some pf
  | _ => none

/-- `item?.data?.isCloseNameMatch` — `undefined` when there is no data. -/
def qpIsClose (i : QPItem) : Option Bool := (qpData i).map (fun pf => pf.isCloseNameMatch)

/-- Models `String.prototype.localeCompare` far enough for the theorems below:
`0` on identical strings (true in every locale), code-unit order otherwise (the
exact order on distinct strings is locale-dependent and is never relied on
below, because the comparator under scrutiny only ever compares a string with
itself). -/
def jsLocaleCompare (a b : String) : Int :=
  if a = b then 0 else if a < b then -1 else 1

/-- Embeds the comparator passed to `allItems.sort` in `selectParameterFile`
(`parameterFiles.ts` 68-93) — including its faithful reproduction of
`const bData = a?.data;` (line 70), which copies `a`'s data into `bData`, and
of the `aData === current` test, which an entry with `undefined` data passes
whenever `current` is `undefined` (no current association). -/
def selectParamFileComparator (current : Option IPossibleParamFile)
    (a b : QPItem) : Int :=
  let aData := qpData a
  let bData := qpData a
  if aData = current then -1
  else if bData = current then 1
  else if a = .noneItem then -1
  else if b = .noneItem then 1
  else if ¬ qpIsClose a = qpIsClose b then
    (if qpIsClose a = some true then -1 else 1)
  else
    jsLocaleCompare ((aData.map (fun pf => pf.path)).getD "")
      ((bData.map (fun pf => pf.path)).getD "")

/-! ## Predicates used by the theorem statements -/

/-- A canonical path segment: nonempty, not `.` or `..`, and without a
separator. Normalized absolute paths are exactly `joinAbs` of such segments. -/
def cleanSeg (s : List Char) : Bool :=
  decide (s ≠ [] ∧ s ≠ ['.'] ∧ s ≠ ['.', '.'] ∧ '/' ∉ s)

/-- The entries of a scope value (none unless it is an object). -/
def settingEntries : SettingVal → SettingObj
  | .obj m => m
  | _ => []

/-- "This scope defines no entry for the template with normalized path `ntp`":
an unset or non-object scope defines none; an object scope must have no key
normalizing to `ntp`. -/
def scopeHasNoEntry : SettingVal → Option String → Prop
  | .obj m, ntp => ∀ kv ∈ m, ¬ normalizePath kv.1 = ntp
  | _, _ => True

/-- "This scope does not interfere with resolution for `ntp`": it is unset, or
an object with no key normalizing to `ntp`.  (A non-object workspace value
replaces the merged setting wholesale and blocks resolution entirely.) -/
def scopeUndefOrNoEntry : SettingVal → Option String → Prop
  | .unset, _ => True
  | .nonObject, _ => False
  | .obj m, ntp => ∀ kv ∈ m, ¬ normalizePath kv.1 = ntp

/-! # Theorems -/

/-! ## Generic list facts -/

theorem isPrefixOf_iff_exists_append (p : List Char) :
    ∀ s : List Char, p.isPrefixOf s = true ↔ ∃ r, s = p ++ r := by
  induction p with
  | nil => intro s; simp [List.isPrefixOf]
  | cons a as ih =>
    intro s
    cases s with
    | nil => simp [List.isPrefixOf]
    | cons b bs =>
      simp only [List.isPrefixOf_cons₂, Bool.and_eq_true, beq_iff_eq, ih,
        List.cons_append, List.cons.injEq]
      constructor
      · rintro ⟨rfl, r, rfl⟩
        exact ⟨r, rfl, rfl⟩
      · rintro ⟨r, rfl, rfl⟩
        exact ⟨rfl, r, rfl⟩

/-! ## Claim C1: the name heuristic -/

/-- The repository's own unit tests for `mayBeMatchingParamFile`
(`test/parameterFiles.test.ts`) hold of the embedding. -/
theorem mayBeMatchingParamFile_unit_tests :
    mayBeMatchingParamFile "template.json" "template.params.json" = true ∧
    mayBeMatchingParamFile "template.json" "template.parameters.json" = true ∧
    mayBeMatchingParamFile "template.json" "template.params.dev.json" = true ∧
    mayBeMatchingParamFile "template.json" "template.params.dev.whatever.json" = true ∧
    mayBeMatchingParamFile "TEMPlate.json" "template.params.dev.whatever.JSON" = true ∧
    mayBeMatchingParamFile "template.JSON" "Template.PARAMETERS.deV.Json" = true ∧
    mayBeMatchingParamFile "TEMPlate.json" "template.params.dev.whatever.JSONc" = true ∧
    mayBeMatchingParamFile "template.JSON" "Template.PARAMETERS.deV.JsonC" = true := by
  decide

/-- Claim C1, counterexample: for the template `a.b.json` and the candidate
`a.params.json` the spec's predicate (stems with *all* extensions stripped:
both stems are `a`) is true, but `mayBeMatchingParamFile` — whose helper
`removeAllExtensions` strips only the last extension, leaving stems `a.b` and
`a.params` — returns false.  The claimed equivalence therefore fails here. -/
theorem C1_counterexample :
    specIsLikelyMatch "a.b.json" "a.params.json" = true ∧
    mayBeMatchingParamFile "a.b.json" "a.params.json" = false := by
  decide

/-- Claim C1 (amended): `mayBeMatchingParamFile T C` returns true iff `C`'s
extension is `.json` or `.jsonc` (case-insensitive) and the lower-cased stem of
`C` with its **last** extension stripped starts, as a literal prefix, with the
lower-cased stem of `T` with its last extension stripped. -/
theorem C1_amended (T C : String) :
    mayBeMatchingParamFile T C = true ↔
      (jsToLowerCase (extname C) = ".json" ∨ jsToLowerCase (extname C) = ".jsonc") ∧
        ∃ r, (jsToLowerCase (removeAllExtensions (basename C))).data
            = (jsToLowerCase (removeAllExtensions (basename T))).data ++ r := by
  unfold mayBeMatchingParamFile hasSupportedParamFileExtension
  by_cases h : jsToLowerCase (extname C) = ".json" ∨ jsToLowerCase (extname C) = ".jsonc"
  · have hb : (jsToLowerCase (extname C) == ".json"
        || jsToLowerCase (extname C) == ".jsonc") = true := by
      rcases h with h | h <;> simp [h]
    simp only [hb, not_true_eq_false, if_false, h, true_and,
      isPrefixOf_iff_exists_append]
  · have hb : (jsToLowerCase (extname C) == ".json"
        || jsToLowerCase (extname C) == ".jsonc") = false := by
      push_neg at h
      simp only [Bool.or_eq_false_iff, beq_eq_false_iff_ne, ne_eq]
      exact ⟨h.1, h.2⟩
    simp [hb, h]

/-! ## Claim C10: no user-global mapping object means no write -/

/-- Claim C10: if the inspected user-global value of the mapping setting is
absent or not an object, `setMappedParamFileForTemplate` returns without
performing any configuration write, for every template path and every
parameters path (including `undefined`). -/
theorem C10_no_write (inWorkspace : String → Bool) (cs : ConfigState)
    (t : String) (p : Option String)
    (h : cs.globalVal = .unset ∨ cs.globalVal = .nonObject) :
    setMappedParamFileForTemplate inWorkspace cs t p = cs := by
  unfold setMappedParamFileForTemplate
  rcases h with h | h <;> rw [h]

/-- Witness for C10 at a concrete input: a fresh configuration (no user-global
value) absorbs a first-ever association without any change. -/
theorem C10_witness :
    setMappedParamFileForTemplate (fun _ => false) ⟨.unset, .unset⟩ "/a/t.json"
        (some "/a/t.params.json") = ⟨.unset, .unset⟩ :=
  C10_no_write (fun _ => false) ⟨.unset, .unset⟩ "/a/t.json"
    (some "/a/t.params.json") (Or.inl rfl)

/-! ## Claim C3: the byte ceiling of the content sniffer -/

theorem occursIn_append_right (needle xs ys : List Char)
    (h : occursIn needle ys = true) : occursIn needle (xs ++ ys) = true := by
  induction xs with
  | nil => simpa using h
  | cons c cs ih =>
    simp only [List.cons_append, occursIn, Bool.or_eq_true]
    exact Or.inr ih

theorem occursIn_replicate_eq_false (needle : List Char) (a : Char)
    (hne : needle ≠ []) (hhead : needle.head? ≠ some a) :
    ∀ n, occursIn needle (List.replicate n a) = false := by
  obtain ⟨c, nd, rfl⟩ : ∃ c nd, needle = c :: nd := by
    cases needle with
    | nil => exact absurd rfl hne
    | cons c nd => exact ⟨c, nd, rfl⟩
  have hca : ¬ c = a := by simpa using hhead
  intro n
  induction n with
  | zero => simp [occursIn, List.isPrefixOf]
  | succ n ih =>
    have hba : (c == a) = false := by simpa using hca
    simp [List.replicate_succ, occursIn, List.isPrefixOf_cons₂, hba, ih]

/-- Claim C3, evaluation at the failing input: a `.json` file consisting of
4100 filler bytes followed by the schema marker — so the marker does **not**
occur within the first `readAtMostBytesToFindParamsSchema = 4096` bytes — is
nevertheless classified as a parameters file, because `doesFileContainString`
never consults its byte ceiling and scans to the end of the stream. -/
theorem C3_code_eval :
    isParameterFile "big.json"
        [⟨List.replicate 4100 'a' ++ paramsSchemaMarker.data⟩] = true ∧
    containsParamsSchema
        ⟨(List.replicate 4100 'a' ++ paramsSchemaMarker.data).take
          readAtMostBytesToFindParamsSchema⟩ = false := by
  constructor
  · have hocc : occursIn paramsSchemaMarker.data paramsSchemaMarker.data = true := by
      decide
    have h1 : containsParamsSchema
        ⟨List.replicate 4100 'a' ++ paramsSchemaMarker.data⟩ = true :=
      occursIn_append_right _ _ _ hocc
    have e : ("" ++ (⟨List.replicate 4100 'a' ++ paramsSchemaMarker.data⟩ : String))
        = (⟨List.replicate 4100 'a' ++ paramsSchemaMarker.data⟩ : String) := rfl
    unfold isParameterFile doesFileContainString doesFileContainStringAux
    rw [if_neg (by decide)]
    simp only [e, h1, if_true]
  · have htake : (List.replicate 4100 'a' ++ paramsSchemaMarker.data).take
        readAtMostBytesToFindParamsSchema = List.replicate 4096 'a' := by
      unfold readAtMostBytesToFindParamsSchema
      rw [List.take_append_of_le_length
        (by rw [List.length_replicate]; norm_num)]
      rw [List.take_replicate, show min (4 * 1024) 4100 = 4096 by norm_num]
    rw [htake]
    exact occursIn_replicate_eq_false _ _ (by decide) (by decide) 4096

/-! ## Claim C6: which close match the prompt proposes -/

/-- Claim C6, evaluation at the failing input: with two close name matches, in
directory-listing order `[t.params.json, t.parameters.dev.json]`, the code
proposes `t.parameters.dev.json` — the **longer** path — because
`closeMatches.sort(pf => -pf.uri.fsPath.length)` passes a one-argument function
as a comparator (it ignores its second argument and is negative on every
nonempty path, which reverses the array), and the first element of the result
is then taken. -/
theorem C6_code_eval :
    chooseClosestMatch
        [⟨"/a/t.params.json", true⟩, ⟨"/a/t.parameters.dev.json", true⟩]
      = some ⟨"/a/t.parameters.dev.json", true⟩ ∧
    ("/a/t.params.json" : String).length
      < ("/a/t.parameters.dev.json" : String).length := by
  decide

/-! ## Claim C5: the quick-pick ordering -/

/-- Claim C5, evaluation at the spec's own ranking scenario (candidates
`a.json (close=false)`, `b.params.json (close=true)`, `c.params.json
(close=true)`; no current association): the comparator orders the "Browse"
entry *before* the non-close candidate in both argument orders (because with no
current association `aData === current` holds of the data-less synthetic
entries), and returns `0` on the two distinct close candidates in both orders
(because the `const bData = a?.data` typo makes the lexicographic tie-break
compare a path with itself) — so no comparison sort can produce the claimed
order (close matches, then non-close matches sorted lexicographically, then
"Browse"). -/
theorem C5_code_eval :
    selectParamFileComparator none .browseItem (.candItem ⟨"/a/a.json", false⟩) = -1 ∧
    selectParamFileComparator none (.candItem ⟨"/a/a.json", false⟩) .browseItem = 1 ∧
    selectParamFileComparator none (.candItem ⟨"/a/b.params.json", true⟩)
        (.candItem ⟨"/a/c.params.json", true⟩) = 0 ∧
    selectParamFileComparator none (.candItem ⟨"/a/c.params.json", true⟩)
        (.candItem ⟨"/a/b.params.json", true⟩) = 0 ∧
    ¬ (("/a/b.params.json" : String) = "/a/c.params.json") := by
  decide

/-! ## Claim C4: declining the prompt -/

/-- Claim C4, evaluation at the failing input: the user answers "No" to the
prompt for template `/a/t.json` (close match `/a/t.params.json`, prompting
enabled, nothing mapped, empty don't-ask list).  The prompt is shown, yet the
persisted `dontAskAboutParamFiles` list is left empty — the "No" branch only
shows an informational message — and a fresh session (empty session set, same
persisted state) prompts again. -/
theorem C4_code_eval :
    (considerQueryingForParameterFile
        ⟨[⟨"/a/t.params.json", true⟩], .no, fun _ => false⟩
        ⟨[], ⟨.obj [], .unset⟩, [], true⟩ "file" "/a/t.json").prompted = true ∧
    (considerQueryingForParameterFile
        ⟨[⟨"/a/t.params.json", true⟩], .no, fun _ => false⟩
        ⟨[], ⟨.obj [], .unset⟩, [], true⟩ "file" "/a/t.json").state.dontAskFiles = [] ∧
    (considerQueryingForParameterFile
        ⟨[⟨"/a/t.params.json", true⟩], .no, fun _ => false⟩
        { (considerQueryingForParameterFile
            ⟨[⟨"/a/t.params.json", true⟩], .no, fun _ => false⟩
            ⟨[], ⟨.obj [], .unset⟩, [], true⟩ "file" "/a/t.json").state with
          session := [] } "file" "/a/t.json").prompted = true := by
  decide

/-! ## Claims C7 and C8: workflow session behaviour -/

/-- Every branch of the workflow core leaves the session set as it found it
(the session mark is made by the caller, before the core runs). -/
theorem considerQueryingCore_session (env : Env) (st : AppState) (docPath : String) :
    (considerQueryingCore env st docPath).state.session = st.session := by
  unfold considerQueryingCore
  split
  · rfl
  · split
    · rfl
    · split
      · rfl
      · split <;> rfl

/-- No branch of the workflow core writes the persisted don't-ask list. -/
theorem considerQueryingCore_dontAsk (env : Env) (st : AppState) (docPath : String) :
    (considerQueryingCore env st docPath).state.dontAskFiles = st.dontAskFiles := by
  unfold considerQueryingCore
  split
  · rfl
  · split
    · rfl
    · split
      · rfl
      · split <;> rfl

/-- When the prompt is dismissed (`UserCancelledError`), the workflow core
leaves the configuration untouched. -/
theorem considerQueryingCore_config_cancel (env : Env) (st : AppState)
    (docPath : String) (h : env.response = .cancel) :
    (considerQueryingCore env st docPath).state.config = st.config := by
  unfold considerQueryingCore
  split
  · rfl
  · split
    · rfl
    · split
      · rfl
      · rw [h]

/-- A template already in the session set makes the workflow a no-op. -/
theorem considerQuerying_noop (env : Env) (st : AppState) (docPath : String)
    (h : sessionKey docPath ∈ st.session) :
    considerQueryingForParameterFile env st "file" docPath = ⟨st, false⟩ := by
  unfold considerQueryingForParameterFile
  rw [if_neg (by simp), if_pos h]

/-- Claim C7: for a file-backed document, any invocation of the reconciliation
workflow after the first — on the same document path, within one process
lifetime — shows no prompt and changes no state, whatever the first invocation
did and whatever environment either invocation sees. -/
theorem C7_idempotent (env1 env2 : Env) (st : AppState) (docPath : String) :
    considerQueryingForParameterFile env2
        (considerQueryingForParameterFile env1 st "file" docPath).state "file" docPath
      = ⟨(considerQueryingForParameterFile env1 st "file" docPath).state, false⟩ := by
  apply considerQuerying_noop
  by_cases h : sessionKey docPath ∈ st.session
  · rw [considerQuerying_noop env1 st docPath h]
    exact h
  · unfold considerQueryingForParameterFile
    rw [if_neg (by simp), if_neg h, considerQueryingCore_session]
    exact List.mem_cons_self _ _

/-- Claim C8, counterexample: dismissing the prompt does **not** leave every
store as it was — the session-scoped suppression set has been mutated, because
the template is marked as checked at workflow entry, before the prompt. -/
theorem C8_counterexample :
    (considerQueryingForParameterFile
        ⟨[⟨"/a/t.params.json", true⟩], .cancel, fun _ => false⟩
        ⟨[], ⟨.obj [], .unset⟩, [], true⟩ "file" "/a/t.json").prompted = true ∧
    ¬ (considerQueryingForParameterFile
        ⟨[⟨"/a/t.params.json", true⟩], .cancel, fun _ => false⟩
        ⟨[], ⟨.obj [], .unset⟩, [], true⟩ "file" "/a/t.json").state.session
      = ([] : List String) := by
  decide

/-- Claim C8 (amended): if the user dismisses the association prompt, the
persisted association mapping and the persisted don't-ask list receive no
mutation from the cancelled run; the session-scoped suppression set either is
unchanged or carries exactly the checked-mark added at workflow entry before
the prompt. -/
theorem C8_amended (env : Env) (st : AppState) (scheme docPath : String)
    (h : env.response = .cancel) :
    (considerQueryingForParameterFile env st scheme docPath).state.config = st.config ∧
    (considerQueryingForParameterFile env st scheme docPath).state.dontAskFiles
      = st.dontAskFiles ∧
    ((considerQueryingForParameterFile env st scheme docPath).state.session = st.session ∨
      (considerQueryingForParameterFile env st scheme docPath).state.session
        = sessionKey docPath :: st.session) := by
  unfold considerQueryingForParameterFile
  split
  · exact ⟨rfl, rfl, Or.inl rfl⟩
  · split
    · exact ⟨rfl, rfl, Or.inl rfl⟩
    · exact ⟨considerQueryingCore_config_cancel env _ docPath h,
        considerQueryingCore_dontAsk env _ docPath,
        Or.inr (considerQueryingCore_session env _ docPath)⟩

/-- Witness for C8 at a concrete input: a cancelled run leaves the
configuration and don't-ask list exactly as they were. -/
theorem C8_witness :
    (considerQueryingForParameterFile ⟨[], .cancel, fun _ => false⟩
        ⟨[], ⟨.unset, .unset⟩, [], false⟩ "file" "/t.json").state.config
      = ⟨.unset, .unset⟩ ∧
    (considerQueryingForParameterFile ⟨[], .cancel, fun _ => false⟩
        ⟨[], ⟨.unset, .unset⟩, [], false⟩ "file" "/t.json").state.dontAskFiles = [] ∧
    ((considerQueryingForParameterFile ⟨[], .cancel, fun _ => false⟩
        ⟨[], ⟨.unset, .unset⟩, [], false⟩ "file" "/t.json").state.session = [] ∨
      (considerQueryingForParameterFile ⟨[], .cancel, fun _ => false⟩
        ⟨[], ⟨.unset, .unset⟩, [], false⟩ "file" "/t.json").state.session
        = sessionKey "/t.json" :: []) :=
  C8_amended ⟨[], .cancel, fun _ => false⟩ ⟨[], ⟨.unset, .unset⟩, [], false⟩
    "file" "/t.json" rfl

/-! ## Store lemmas shared by claims C2 and C9 -/

theorem findLoop_eq_of_no_match (ntp : Option String) (dir : String)
    (m : SettingObj) (h : ∀ kv ∈ m, ¬ normalizePath kv.1 = ntp) :
    ∀ acc, findLoop ntp dir acc m = acc := by
  induction m with
  | nil => intro acc; rfl
  | cons kv rest ih =>
    intro acc
    obtain ⟨k, v⟩ := kv
    show findLoop ntp dir (if normalizePath k = ntp then _ else acc) rest = acc
    rw [if_neg (h (k, v) (List.mem_cons_self _ _))]
    exact ih (fun kv hkv => h kv (List.mem_cons_of_mem _ hkv)) acc

theorem findLoop_append (ntp : Option String) (dir : String) (m1 : SettingObj) :
    ∀ (acc : Option String) (m2 : SettingObj),
      findLoop ntp dir acc (m1 ++ m2) = findLoop ntp dir (findLoop ntp dir acc m1) m2 := by
  induction m1 with
  | nil => intro acc m2; rfl
  | cons kv rest ih =>
    intro acc m2
    obtain ⟨k, v⟩ := kv
    show findLoop ntp dir _ (rest ++ m2) = _
    rw [ih]
    rfl

/-- Every key of the merged object is a key of one of the two scopes. -/
theorem mem_mergeObjs_key (g w : SettingObj) (kv : String × EntryVal)
    (h : kv ∈ mergeObjs g w) : (∃ kv2 ∈ g, kv2.1 = kv.1) ∨ kv ∈ w := by
  unfold mergeObjs at h
  rcases List.mem_append.mp h with h | h
  · obtain ⟨kv2, hkv2, he⟩ := List.mem_map.mp h
    exact Or.inl ⟨kv2, hkv2, by rw [← he]⟩
  · exact Or.inr (List.mem_filter.mp h).1

/-- The entries of the user-global map that survive the pruning step of
`setMappedParamFileForTemplate` never normalize to the template's key. -/
theorem mem_pruned (ntp : Option String) (g : SettingObj) (kv : String × EntryVal)
    (h : kv ∈ g.filter (fun kv => decide (¬ normalizePath kv.1 = ntp))) :
    kv ∈ g ∧ ¬ normalizePath kv.1 = ntp := by
  obtain ⟨h1, h2⟩ := List.mem_filter.mp h
  exact ⟨h1, of_decide_eq_true h2⟩

/-! ## Claim C9: clearing an association -/

/-- Claim C9: `setMappedParamFileForTemplate t undefined` removes every entry
for `t` from the writable (user-global) scope without writing any stand-in
value — every surviving user-global entry existed before and none normalizes to
`t`'s key — and a subsequent `findMappedParamFileForTemplate t` returns
`undefined` provided the workspace scope defines no entry for `t`. -/
theorem C9_clearing (inWorkspace : String → Bool) (cs : ConfigState) (t : String)
    (hw : scopeHasNoEntry cs.workspaceVal (normalizePath t)) :
    findMappedParamFileForTemplate
        (setMappedParamFileForTemplate inWorkspace cs t none) t = none ∧
    ∀ kv ∈ settingEntries (setMappedParamFileForTemplate inWorkspace cs t none).globalVal,
      ¬ normalizePath kv.1 = normalizePath t ∧ kv ∈ settingEntries cs.globalVal := by
  obtain ⟨gv, wv⟩ := cs
  cases gv with
  | obj g =>
    have hset : setMappedParamFileForTemplate inWorkspace ⟨.obj g, wv⟩ t none
        = ⟨.obj (g.filter (fun kv => decide (¬ normalizePath kv.1 = normalizePath t))), wv⟩ :=
      rfl
    rw [hset]
    constructor
    · unfold findMappedParamFileForTemplate mergedGet
      cases wv with
      | unset =>
        exact findLoop_eq_of_no_match _ _ _
          (fun kv hkv => (mem_pruned _ _ _ hkv).2) none
      | nonObject => rfl
      | obj w =>
        apply findLoop_eq_of_no_match
        intro kv hkv
        rcases mem_mergeObjs_key _ _ _ hkv with ⟨kv2, hkv2, hk⟩ | hkv
        · rw [← hk]
          exact (mem_pruned _ _ _ hkv2).2
        · exact hw kv hkv
    · intro kv hkv
      exact ⟨(mem_pruned _ _ _ hkv).2, (mem_pruned _ _ _ hkv).1⟩
  | unset =>
    refine ⟨?_, by intro kv hkv; cases hkv⟩
    unfold findMappedParamFileForTemplate mergedGet
    cases wv with
    | unset => rfl
    | nonObject => rfl
    | obj w => exact findLoop_eq_of_no_match _ _ _ hw none
  | nonObject =>
    refine ⟨?_, by intro kv hkv; cases hkv⟩
    unfold findMappedParamFileForTemplate mergedGet
    cases wv with
    | unset => rfl
    | nonObject => rfl
    | obj w => exact findLoop_eq_of_no_match _ _ _ hw none

/-- Witness for C9 at a concrete input: clearing the only mapping of
`/a/t.json` empties the user-global map and resolution returns nothing. -/
theorem C9_witness :
    findMappedParamFileForTemplate
        (setMappedParamFileForTemplate (fun _ => false)
          ⟨.obj [("/a/t.json", .str "x.json")], .unset⟩ "/a/t.json" none)
        "/a/t.json" = none ∧
    ∀ kv ∈ settingEntries (setMappedParamFileForTemplate (fun _ => false)
          ⟨.obj [("/a/t.json", .str "x.json")], .unset⟩ "/a/t.json" none).globalVal,
      ¬ normalizePath kv.1 = normalizePath "/a/t.json" ∧
        kv ∈ settingEntries (ConfigState.mk
          (.obj [("/a/t.json", .str "x.json")]) .unset).globalVal :=
  C9_clearing (fun _ => false) ⟨.obj [("/a/t.json", .str "x.json")], .unset⟩
    "/a/t.json" trivial

/-! ## Path algebra for claim C2 -/

theorem splitSegs_ne_nil (x : List Char) : splitSegs x ≠ [] := by
  cases x with
  | nil => simp [splitSegs]
  | cons c rest =>
    unfold splitSegs
    split
    · simp
    · split <;> simp_all

theorem splitSegs_exists_cons (x : List Char) :
    ∃ s ss, splitSegs x = s :: ss := by
  cases h : splitSegs x with
  | nil => exact absurd h (splitSegs_ne_nil x)
  | cons s ss => exact ⟨s, ss, rfl⟩

theorem splitSegs_cons_slash (rest : List Char) :
    splitSegs ('/' :: rest) = [] :: splitSegs rest := rfl

theorem splitSegs_cons_of_ne (c : Char) (rest : List Char) (hc : ¬ c = '/')
    (s : List Char) (ss : List (List Char)) (hss : splitSegs rest = s :: ss) :
    splitSegs (c :: rest) = (c :: s) :: ss := by
  unfold splitSegs
  rw [if_neg hc, hss]

theorem splitSegs_append_slash (x y : List Char) :
    splitSegs (x ++ '/' :: y) = splitSegs x ++ splitSegs y := by
  induction x with
  | nil =>
    rw [List.nil_append, splitSegs_cons_slash]
    rfl
  | cons c rest ih =>
    by_cases hc : c = '/'
    · subst hc
      rw [List.cons_append, splitSegs_cons_slash, splitSegs_cons_slash, ih,
        List.cons_append]
    · obtain ⟨s, ss, hss⟩ := splitSegs_exists_cons rest
      have hss2 : splitSegs (rest ++ '/' :: y) = s :: (ss ++ splitSegs y) := by
        rw [ih, hss]
        rfl
      rw [List.cons_append, splitSegs_cons_of_ne c _ hc _ _ hss2,
        splitSegs_cons_of_ne c _ hc _ _ hss]
      rfl

theorem not_slash_mem_splitSegs (x : List Char) :
    ∀ s ∈ splitSegs x, '/' ∉ s := by
  induction x with
  | nil => simp [splitSegs]
  | cons c rest ih =>
    by_cases hc : c = '/'
    · subst hc
      rw [splitSegs_cons_slash]
      intro s hs
      rcases List.mem_cons.mp hs with rfl | hs
      · simp
      · exact ih s hs
    · obtain ⟨s0, ss, hss⟩ := splitSegs_exists_cons rest
      rw [splitSegs_cons_of_ne c _ hc _ _ hss]
      intro s hs
      rcases List.mem_cons.mp hs with rfl | hs
      · intro hmem
        rcases List.mem_cons.mp hmem with h | h
        · exact hc h.symm
        · exact ih s0 (hss ▸ List.mem_cons_self _ _) h
      · exact ih s (hss ▸ List.mem_cons_of_mem _ hs)

theorem splitSegs_no_slash (x : List Char) (h : '/' ∉ x) : splitSegs x = [x] := by
  induction x with
  | nil => rfl
  | cons c rest ih =>
    have hc : ¬ c = '/' := fun hc => h (hc ▸ List.mem_cons_self _ _)
    have hrest : '/' ∉ rest := fun hr => h (List.mem_cons_of_mem _ hr)
    exact splitSegs_cons_of_ne c _ hc _ _ (ih hrest)

theorem splitSegs_joinSegs (R : List (List Char)) (hne : R ≠ [])
    (hns : ∀ s ∈ R, '/' ∉ s) : splitSegs (joinSegs R) = R := by
  induction R with
  | nil => exact absurd rfl hne
  | cons r rest ih =>
    cases rest with
    | nil =>
      show splitSegs (joinSegs [r]) = [r]
      exact splitSegs_no_slash r (hns r (List.mem_cons_self _ _))
    | cons r2 rest2 =>
      show splitSegs (r ++ '/' :: joinSegs (r2 :: rest2)) = r :: r2 :: rest2
      rw [splitSegs_append_slash, splitSegs_no_slash r (hns r (List.mem_cons_self _ _))]
      rw [ih (by simp) (fun s hs => hns s (List.mem_cons_of_mem _ hs))]
      rfl

theorem joinSegs_cons_cons (r r2 : List Char) (rest : List (List Char)) :
    joinSegs (r :: r2 :: rest) = r ++ '/' :: joinSegs (r2 :: rest) := rfl

theorem joinSegs_append (l R : List (List Char)) (hl : l ≠ []) (hR : R ≠ []) :
    joinSegs (l ++ R) = joinSegs l ++ '/' :: joinSegs R := by
  induction l with
  | nil => exact absurd rfl hl
  | cons r rest ih =>
    cases rest with
    | nil =>
      cases R with
      | nil => exact absurd rfl hR
      | cons r2 rest2 => exact joinSegs_cons_cons r r2 rest2
    | cons r2 rest2 =>
      show joinSegs (r :: (r2 :: rest2 ++ R)) = (r ++ '/' :: joinSegs (r2 :: rest2)) ++ '/' :: joinSegs R
      have h1 : r2 :: rest2 ++ R = r2 :: (rest2 ++ R) := rfl
      rw [h1]
      rw [joinSegs_cons_cons r r2 (rest2 ++ R)]
      have h2 : joinSegs (r2 :: (rest2 ++ R)) = joinSegs ((r2 :: rest2) ++ R) := rfl
      rw [h2, ih (by simp)]
      simp

/-- `cleanSeg` unpacked. -/
theorem cleanSeg_spec (s : List Char) (h : cleanSeg s = true) :
    s ≠ [] ∧ s ≠ ['.'] ∧ s ≠ ['.', '.'] ∧ '/' ∉ s :=
  of_decide_eq_true h

theorem normA_cons_skip (acc : List (List Char)) (s : List Char)
    (rest : List (List Char)) (h : s = [] ∨ s = ['.']) :
    normA acc (s :: rest) = normA acc rest := by
  simp only [normA]
  rw [if_pos h]

theorem normA_cons_dotdot (acc rest : List (List Char)) :
    normA acc (['.', '.'] :: rest) = normA acc.dropLast rest := by
  simp only [normA]
  rw [if_neg (by simp)]
  simp

theorem normA_cons_push (acc : List (List Char)) (s : List Char)
    (rest : List (List Char)) (h1 : ¬ (s = [] ∨ s = ['.'])) (h2 : ¬ s = ['.', '.']) :
    normA acc (s :: rest) = normA (acc ++ [s]) rest := by
  simp only [normA]
  rw [if_neg h1, if_neg h2]

theorem normA_clean_append (m : List (List Char)) (hm : ∀ s ∈ m, cleanSeg s = true) :
    ∀ (acc rest : List (List Char)), normA acc (m ++ rest) = normA (acc ++ m) rest := by
  induction m with
  | nil => intro acc rest; rw [List.append_nil]; rfl
  | cons s m' ih =>
    intro acc rest
    obtain ⟨h1, h2, h3, _⟩ := cleanSeg_spec s (hm s (List.mem_cons_self _ _))
    show normA acc (s :: (m' ++ rest)) = normA (acc ++ s :: m') rest
    rw [normA_cons_push acc s _ (by simp [h1, h2]) h3]
    rw [ih (fun x hx => hm x (List.mem_cons_of_mem _ hx)) (acc ++ [s]) rest]
    rw [List.append_assoc]
    rfl

theorem normA_clean (m : List (List Char)) (hm : ∀ s ∈ m, cleanSeg s = true)
    (acc : List (List Char)) : normA acc m = acc ++ m := by
  have h := normA_clean_append m hm acc []
  rw [List.append_nil] at h
  exact h

theorem normA_dotdot_up (k : Nat) :
    ∀ (D rest : List (List Char)), k ≤ D.length →
      normA D (List.replicate k ['.', '.'] ++ rest) = normA (D.take (D.length - k)) rest := by
  induction k with
  | zero =>
    intro D rest _
    rw [List.replicate_zero, List.nil_append, Nat.sub_zero, List.take_length]
  | succ k ih =>
    intro D rest hk
    rw [List.replicate_succ, List.cons_append, normA_cons_dotdot]
    rw [ih D.dropLast rest (by rw [List.length_dropLast]; omega)]
    congr 1
    rw [List.dropLast_eq_take, List.take_take, List.length_take]
    congr 1
    omega

theorem normA_output_clean (L : List (List Char)) (hL : ∀ s ∈ L, '/' ∉ s) :
    ∀ acc, (∀ s ∈ acc, cleanSeg s = true) →
      ∀ x ∈ normA acc L, cleanSeg x = true := by
  induction L with
  | nil => intro acc hacc x hx; exact hacc x hx
  | cons s L' ih =>
    intro acc hacc x hx
    have hL' : ∀ s ∈ L', '/' ∉ s := fun s hs => hL s (List.mem_cons_of_mem _ hs)
    unfold normA at hx
    by_cases h1 : s = [] ∨ s = ['.']
    · rw [if_pos h1] at hx
      exact ih hL' acc hacc x hx
    · rw [if_neg h1] at hx
      by_cases h2 : s = ['.', '.']
      · rw [if_pos h2] at hx
        refine ih hL' acc.dropLast (fun y hy => hacc y ?_) x hx
        rw [List.dropLast_eq_take] at hy
        exact List.take_subset _ _ hy
      · rw [if_neg h2] at hx
        refine ih hL' (acc ++ [s]) (fun y hy => ?_) x hx
        rcases List.mem_append.mp hy with hy | hy
        · exact hacc y hy
        · have hys : y = s := by simpa using hy
          subst hys
          push_neg at h1
          exact decide_eq_true ⟨h1.1, h1.2, h2, hL y (List.mem_cons_self _ _)⟩

theorem commonPrefixLen_le_left :
    ∀ A B : List (List Char), commonPrefixLen A B ≤ A.length := by
  intro A
  induction A with
  | nil => intro B; cases B <;> simp [commonPrefixLen]
  | cons a as ih =>
    intro B
    cases B with
    | nil => simp [commonPrefixLen]
    | cons b bs =>
      unfold commonPrefixLen
      split
      · have := ih bs
        simp
        omega
      · simp

theorem commonPrefixLen_take_eq :
    ∀ A B : List (List Char),
      A.take (commonPrefixLen A B) = B.take (commonPrefixLen A B) := by
  intro A
  induction A with
  | nil => intro B; cases B <;> simp [commonPrefixLen]
  | cons a as ih =>
    intro B
    cases B with
    | nil => simp [commonPrefixLen]
    | cons b bs =>
      unfold commonPrefixLen
      split
      · rename_i hab
        rw [List.take_succ_cons, List.take_succ_cons, hab, ih bs]
      · simp

theorem dirnameStr_joinAbs (l : List (List Char)) (f : List Char) (hf : '/' ∉ f) :
    dirnameStr ⟨joinAbs (l ++ [f])⟩ = ⟨joinAbs l⟩ := by
  cases l with
  | nil =>
    show dirnameStr ⟨'/' :: joinSegs [f]⟩ = "/"
    unfold dirnameStr
    rw [if_pos (by simp)]
    have hrev : ('/' :: joinSegs [f]).reverse = f.reverse ++ ['/'] := by
      show ('/' :: f).reverse = f.reverse ++ ['/']
      simp
    have hdrop : (('/' :: joinSegs [f]).reverse.dropWhile (fun c => c != '/')) = ['/'] := by
      rw [hrev, List.dropWhile_append]
      have h1 : (f.reverse.dropWhile (fun c => c != '/')) = [] := by
        rw [List.dropWhile_eq_nil_iff]
        intro x hx
        simp only [bne_iff_ne, ne_eq, decide_not]
        have : x ≠ '/' := by
          intro hxe
          exact hf (by simpa [hxe] using List.mem_reverse.mp hx)
        simpa using this
      rw [h1]
      simp
    rw [hdrop]
    rfl
  | cons l0 ls =>
    unfold dirnameStr
    have hjoin : joinAbs ((l0 :: ls) ++ [f]) = '/' :: (joinSegs (l0 :: ls) ++ '/' :: f) := by
      show joinAbs ((l0 :: ls) ++ [f]) = '/' :: (joinSegs (l0 :: ls) ++ '/' :: joinSegs [f])
      unfold joinAbs
      rw [joinSegs_append (l0 :: ls) [f] (by simp) (by simp)]
    rw [if_pos (by rw [hjoin]; simp)]
    have hrev : (⟨joinAbs ((l0 :: ls) ++ [f])⟩ : String).data.reverse
        = f.reverse ++ '/' :: ((joinSegs (l0 :: ls)).reverse ++ ['/']) := by
      show (joinAbs ((l0 :: ls) ++ [f])).reverse = _
      rw [hjoin]
      simp
    have hdrop : ((⟨joinAbs ((l0 :: ls) ++ [f])⟩ : String).data.reverse.dropWhile
        (fun c => c != '/')) = '/' :: ((joinSegs (l0 :: ls)).reverse ++ ['/']) := by
      rw [hrev, List.dropWhile_append]
      have h1 : (f.reverse.dropWhile (fun c => c != '/')) = [] := by
        rw [List.dropWhile_eq_nil_iff]
        intro x hx
        have : x ≠ '/' := by
          intro hxe
          exact hf (by simpa [hxe] using List.mem_reverse.mp hx)
        simpa using this
      rw [h1]
      simp
    rw [hdrop]
    have hpre : (('/' :: ((joinSegs (l0 :: ls)).reverse ++ ['/'])).reverse).dropLast
        = '/' :: joinSegs (l0 :: ls) := by
      simp
      rw [show '/' :: (joinSegs (l0 :: ls) ++ ['/'])
          = ('/' :: joinSegs (l0 :: ls)) ++ ['/'] from rfl]
      rw [List.dropLast_concat]
    rw [hpre]
    rw [if_neg (by simp)]
    rfl

theorem normA_splitSegs_joinAbs (l : List (List Char))
    (hl : ∀ x ∈ l, cleanSeg x = true) :
    normA [] (splitSegs (joinAbs l)) = l := by
  cases l with
  | nil =>
    show normA [] (splitSegs ['/']) = []
    rfl
  | cons l0 ls =>
    show normA [] (splitSegs ('/' :: joinSegs (l0 :: ls))) = l0 :: ls
    rw [splitSegs_cons_slash]
    rw [splitSegs_joinSegs (l0 :: ls) (by simp)
      (fun s hs => (cleanSeg_spec s (hl s hs)).2.2.2)]
    rw [normA_cons_skip [] [] _ (Or.inl rfl)]
    exact normA_clean (l0 :: ls) hl []

theorem pathNormalize_abs (p : String) (hp : isAbsolute p = true) :
    pathNormalize p = ⟨joinAbs (normA [] (splitSegs p.data))⟩ := by
  unfold pathNormalize
  rw [if_pos hp]

theorem normA_append (X : List (List Char)) :
    ∀ (acc Y : List (List Char)), normA acc (X ++ Y) = normA (normA acc X) Y := by
  induction X with
  | nil => intro acc Y; rfl
  | cons s X' ih =>
    intro acc Y
    rw [show (s :: X') ++ Y = s :: (X' ++ Y) from rfl]
    by_cases h1 : s = [] ∨ s = ['.']
    · rw [normA_cons_skip _ _ _ h1, normA_cons_skip _ _ _ h1, ih]
    · by_cases h2 : s = ['.', '.']
      · subst h2
        rw [normA_cons_dotdot, normA_cons_dotdot, ih]
      · rw [normA_cons_push _ _ _ h1 h2, normA_cons_push _ _ _ h1 h2, ih]

theorem mk_cons_ne_empty (c : Char) (cs : List Char) : (⟨c :: cs⟩ : String) ≠ "" :=
  fun h => List.noConfusion (congrArg String.data h)

theorem pathResolve_of_abs (d r : String) (hr : isAbsolute r = true) :
    pathResolve d r = pathNormalize r := by
  unfold pathResolve
  rw [if_pos hr]

theorem pathResolve_of_rel (d r : String) (hr : isAbsolute r = false) :
    pathResolve d r = pathNormalize ⟨d.data ++ '/' :: r.data⟩ := by
  unfold pathResolve
  rw [if_neg (by simp [hr])]

/-- The round trip at the heart of claim C2: resolving, against an absolute
directory, the relative path that `path.relative` computed from that directory
to an absolute target yields the normalized target. -/
theorem pathResolve_pathRelative (l : List (List Char)) (p : String)
    (hl : ∀ x ∈ l, cleanSeg x = true) (hp : isAbsolute p = true) :
    pathResolve ⟨joinAbs l⟩ (pathRelative ⟨joinAbs l⟩ p) = pathNormalize p := by
  have hP : ∀ x ∈ normA [] (splitSegs p.data), cleanSeg x = true :=
    normA_output_clean _ (not_slash_mem_splitSegs _) [] (by intro s hs; cases hs)
  have hc : commonPrefixLen l (normA [] (splitSegs p.data))
      ≤ l.length := commonPrefixLen_le_left _ _
  have htk : l.take (commonPrefixLen l (normA [] (splitSegs p.data)))
      = (normA [] (splitSegs p.data)).take
        (commonPrefixLen l (normA [] (splitSegs p.data))) := commonPrefixLen_take_eq _ _
  have hrel : pathRelative ⟨joinAbs l⟩ p
      = ⟨joinSegs (List.replicate
          (l.length - commonPrefixLen l (normA [] (splitSegs p.data))) ['.', '.']
        ++ (normA [] (splitSegs p.data)).drop
          (commonPrefixLen l (normA [] (splitSegs p.data))))⟩ := by
    show (⟨joinSegs (List.replicate
        ((normA [] (splitSegs (joinAbs l))).length
          - commonPrefixLen (normA [] (splitSegs (joinAbs l)))
            (normA [] (splitSegs p.data))) ['.', '.']
      ++ (normA [] (splitSegs p.data)).drop
        (commonPrefixLen (normA [] (splitSegs (joinAbs l)))
          (normA [] (splitSegs p.data))))⟩ : String) = _
    rw [normA_splitSegs_joinAbs l hl]
  rw [hrel, pathNormalize_abs p hp]
  set P := normA [] (splitSegs p.data) with hPdef
  set c := commonPrefixLen l P with hcdef
  by_cases hR : List.replicate (l.length - c) ['.', '.'] ++ P.drop c = []
  · obtain ⟨h1, h2⟩ := List.append_eq_nil.mp hR
    have hcl : c = l.length := by
      have hlen := congrArg List.length h1
      rw [List.length_replicate] at hlen
      simp only [List.length_nil] at hlen
      omega
    have hPl : P = l := by
      have hPc : P.take c ++ P.drop c = P := List.take_append_drop _ _
      rw [h2, List.append_nil] at hPc
      rw [← hPc, ← htk, hcl, List.take_length]
    rw [hR]
    rw [pathResolve_of_rel ⟨joinAbs l⟩ ⟨joinSegs []⟩ rfl]
    rw [pathNormalize_abs _ (show isAbsolute ⟨joinAbs l ++ '/' :: joinSegs []⟩ = true by
      show isAbsolute ⟨('/' :: joinSegs l) ++ '/' :: joinSegs []⟩ = true
      rfl)]
    show (⟨joinAbs (normA [] (splitSegs (joinAbs l ++ '/' :: ([] : List Char))))⟩ : String)
        = ⟨joinAbs P⟩
    rw [splitSegs_append_slash]
    rw [show splitSegs ([] : List Char) = [[]] from rfl]
    rw [normA_append, normA_splitSegs_joinAbs l hl]
    rw [normA_cons_skip l [] [] (Or.inl rfl)]
    rw [show normA l [] = l from rfl, hPl]
  · have hsegsR : ∀ s ∈ List.replicate (l.length - c) ['.', '.'] ++ P.drop c,
        s ≠ [] ∧ '/' ∉ s := by
      intro s hs
      rcases List.mem_append.mp hs with hs | hs
      · rw [List.eq_of_mem_replicate hs]
        exact ⟨by simp, by simp⟩
      · obtain ⟨hn, _, _, hns⟩ := cleanSeg_spec s (hP s (List.drop_subset _ _ hs))
        exact ⟨hn, hns⟩
    obtain ⟨r0, R', hRR⟩ : ∃ r0 R',
        List.replicate (l.length - c) ['.', '.'] ++ P.drop c = r0 :: R' := by
      cases h : List.replicate (l.length - c) ['.', '.'] ++ P.drop c with
      | nil => exact absurd h hR
      | cons r0 R' => exact ⟨r0, R', rfl⟩
    obtain ⟨ch, r0', hr0⟩ : ∃ ch r0', r0 = ch :: r0' := by
      have := (hsegsR r0 (hRR ▸ List.mem_cons_self _ _)).1
      cases r0 with
      | nil => exact absurd rfl this
      | cons ch r0' => exact ⟨ch, r0', rfl⟩
    have hch : ch ≠ '/' := by
      have := (hsegsR r0 (hRR ▸ List.mem_cons_self _ _)).2
      intro h
      exact this (h ▸ hr0 ▸ List.mem_cons_self _ _)
    obtain ⟨z, hz⟩ : ∃ z, joinSegs (r0 :: R') = r0 ++ z := by
      cases R' with
      | nil => exact ⟨[], by simp [joinSegs]⟩
      | cons r2 rest2 => exact ⟨'/' :: joinSegs (r2 :: rest2), joinSegs_cons_cons _ _ _⟩
    have habs : isAbsolute ⟨joinSegs (List.replicate (l.length - c) ['.', '.']
        ++ P.drop c)⟩ = false := by
      rw [hRR, hz, hr0]
      show isAbsolute ⟨ch :: (r0' ++ z)⟩ = false
      unfold isAbsolute
      split
      · rename_i heq
        exact absurd (List.head_eq_of_cons_eq heq) hch
      · rfl
    rw [pathResolve_of_rel _ _ habs]
    rw [pathNormalize_abs _ (show isAbsolute ⟨joinAbs l ++ '/' :: joinSegs
        (List.replicate (l.length - c) ['.', '.'] ++ P.drop c)⟩ = true by
      show isAbsolute ⟨('/' :: joinSegs l) ++ _⟩ = true
      rfl)]
    show (⟨joinAbs (normA [] (splitSegs (joinAbs l ++ '/' :: joinSegs
        (List.replicate (l.length - c) ['.', '.'] ++ P.drop c))))⟩ : String)
      = ⟨joinAbs P⟩
    rw [splitSegs_append_slash]
    rw [splitSegs_joinSegs _ hR (fun s hs => (hsegsR s hs).2)]
    rw [normA_append, normA_splitSegs_joinAbs l hl]
    rw [normA_dotdot_up (l.length - c) l (P.drop c) (by omega)]
    rw [show l.length - (l.length - c) = c by omega]
    rw [normA_clean (P.drop c) (fun x hx => hP x (List.drop_subset _ _ hx)) (l.take c)]
    rw [htk, List.take_append_drop]

theorem pathNormalize_abs_ne_empty (p : String) (hp : isAbsolute p = true) :
    pathNormalize p ≠ "" := by
  rw [pathNormalize_abs p hp]
  exact mk_cons_ne_empty '/' _

/-- Resolving the stored "friendly" path (relative when the parameters file is
inside a workspace folder, absolute otherwise) against the template's directory
recovers the normalized parameters path. -/
theorem resolve_friendly (inW : String → Bool) (l : List (List Char)) (f : List Char)
    (t p : String) (hl : ∀ x ∈ l, cleanSeg x = true) (hf : '/' ∉ f)
    (ht : t.data = joinAbs (l ++ [f])) (hp : isAbsolute p = true) :
    pathResolve (dirnameStr t) (getFriendlyPathToParamFile inW t p) = pathNormalize p := by
  have ht2 : t = ⟨joinAbs (l ++ [f])⟩ := by
    cases t with
    | mk data => exact congrArg String.mk ht
  have hd : dirnameStr t = ⟨joinAbs l⟩ := by
    rw [ht2]
    exact dirnameStr_joinAbs l f hf
  unfold getFriendlyPathToParamFile
  by_cases hin : inW p
  · rw [if_pos hin, hd]
    exact pathResolve_pathRelative l p hl hp
  · rw [if_neg hin]
    exact pathResolve_of_abs _ p hp

/-- A map with exactly one entry for the template — keyed by the raw template
path — resolves to that entry's value, resolved against the template folder. -/
theorem findLoop_single_match (dir t rel : String) (M1 M2 : SettingObj)
    (h1 : ∀ kv ∈ M1, ¬ normalizePath kv.1 = normalizePath t)
    (h2 : ∀ kv ∈ M2, ¬ normalizePath kv.1 = normalizePath t) (acc : Option String) :
    findLoop (normalizePath t) dir acc (M1 ++ (t, EntryVal.str rel) :: M2)
      = if pathResolve dir rel = "" then none else some (pathResolve dir rel) := by
  rw [findLoop_append, findLoop_eq_of_no_match _ _ M1 h1 acc]
  show findLoop (normalizePath t) dir
      (if normalizePath t = normalizePath t then
        if pathResolve dir rel = "" then none else some (pathResolve dir rel)
      else acc) M2 = _
  rw [if_pos rfl]
  exact findLoop_eq_of_no_match _ _ M2 h2 _

theorem lookupKey_eq_none (w : SettingObj) (t : String)
    (hw : ∀ kv ∈ w, ¬ normalizePath kv.1 = normalizePath t) :
    lookupKey w t = none := by
  unfold lookupKey
  rw [List.find?_eq_none.mpr]
  · rfl
  · intro kv hkv hbeq
    exact hw kv hkv (by rw [eq_of_beq hbeq])

/-! ## Claim C2: the set/resolve round trip -/

/-- Claim C2, counterexamples: (a) on a configuration whose user-global value
for the mapping setting is absent, `set` is a silent no-op, so the following
`resolve` returns nothing rather than the path just set; (b) a pre-existing
workspace-scope entry for the same template overrides the freshly written
user-global entry, so `resolve` returns the workspace value instead.  Both runs
perform no intervening `set` and no configuration edit between `set` and
`resolve`, with `/a/t.params.json` absolute and reachable from `/a`. -/
theorem C2_counterexample :
    findMappedParamFileForTemplate
        (setMappedParamFileForTemplate (fun _ => false) ⟨.unset, .unset⟩
          "/a/t.json" (some "/a/t.params.json")) "/a/t.json" = none ∧
    findMappedParamFileForTemplate
        (setMappedParamFileForTemplate (fun _ => false)
          ⟨.obj [], .obj [("/a/t.json", .str "other.json")]⟩
          "/a/t.json" (some "/a/t.params.json")) "/a/t.json" = some "/a/other.json" ∧
    ¬ (some ("/a/other.json" : String) = some (pathNormalize "/a/t.params.json")) := by
  decide

/-- Claim C2 (amended): if the user-global value of the mapping setting is an
object, and the workspace scope is unset or defines no entry for the template,
then for a template with a clean absolute path and any absolute parameters path
`p`, `setMappedParamFileForTemplate t p` followed by
`findMappedParamFileForTemplate t` — with no intervening set and no external
configuration edit — returns `p` up to normalization (relative stored entries
being resolved against the template's containing directory). -/
theorem C2_amended (inWorkspace : String → Bool) (g : SettingObj) (wv : SettingVal)
    (l : List (List Char)) (f : List Char) (t p : String)
    (hl : ∀ x ∈ l, cleanSeg x = true) (hf : '/' ∉ f)
    (ht : t.data = joinAbs (l ++ [f]))
    (hp : isAbsolute p = true)
    (hw : scopeUndefOrNoEntry wv (normalizePath t)) :
    findMappedParamFileForTemplate
        (setMappedParamFileForTemplate inWorkspace ⟨.obj g, wv⟩ t (some p)) t
      = some (pathNormalize p) := by
  have hres : pathResolve (dirnameStr t) (getFriendlyPathToParamFile inWorkspace t p)
      = pathNormalize p := resolve_friendly inWorkspace l f t p hl hf ht hp
  have hne : pathNormalize p ≠ "" := pathNormalize_abs_ne_empty p hp
  have hset : setMappedParamFileForTemplate inWorkspace ⟨.obj g, wv⟩ t (some p)
      = ⟨.obj (g.filter (fun kv => decide (¬ normalizePath kv.1 = normalizePath t))
          ++ [(t, .str (getFriendlyPathToParamFile inWorkspace t p))]), wv⟩ := rfl
  rw [hset]
  have h1 : ∀ kv ∈ g.filter (fun kv => decide (¬ normalizePath kv.1 = normalizePath t)),
      ¬ normalizePath kv.1 = normalizePath t := fun kv hkv => (mem_pruned _ _ _ hkv).2
  cases wv with
  | unset =>
    have hfind : ∀ M : SettingObj, findMappedParamFileForTemplate ⟨.obj M, .unset⟩ t
        = findLoop (normalizePath t) (dirnameStr t) none M := fun M => rfl
    rw [hfind, findLoop_single_match (dirnameStr t) t _ _ [] h1 (by intro kv hkv; cases hkv) none]
    rw [hres, if_neg hne]
  | nonObject => exact hw.elim
  | obj w =>
    have hwx : ∀ kv ∈ w, ¬ normalizePath kv.1 = normalizePath t := hw
    have hfind : ∀ M : SettingObj, findMappedParamFileForTemplate ⟨.obj M, .obj w⟩ t
        = findLoop (normalizePath t) (dirnameStr t) none (mergeObjs M w) := fun M => rfl
    rw [hfind]
    have hlook : lookupKey w t = none := lookupKey_eq_none w t hwx
    have hmg : mergeObjs
        (g.filter (fun kv => decide (¬ normalizePath kv.1 = normalizePath t))
          ++ [(t, .str (getFriendlyPathToParamFile inWorkspace t p))]) w
        = (g.filter (fun kv => decide (¬ normalizePath kv.1 = normalizePath t))).map
            (fun kv => (kv.1, (lookupKey w kv.1).getD kv.2))
          ++ (t, EntryVal.str (getFriendlyPathToParamFile inWorkspace t p))
            :: w.filter (fun kv => (lookupKey
              (g.filter (fun kv => decide (¬ normalizePath kv.1 = normalizePath t))
                ++ [(t, .str (getFriendlyPathToParamFile inWorkspace t p))]) kv.1).isNone) := by
      unfold mergeObjs
      rw [List.map_append]
      rw [show [(t, EntryVal.str (getFriendlyPathToParamFile inWorkspace t p))].map
            (fun kv => (kv.1, (lookupKey w kv.1).getD kv.2))
          = [(t, (lookupKey w t).getD (.str (getFriendlyPathToParamFile inWorkspace t p)))]
        from rfl]
      rw [hlook]
      rw [List.append_assoc]
      rfl
    rw [hmg]
    rw [findLoop_single_match (dirnameStr t) t _ _ _
      (by
        intro kv hkv
        obtain ⟨kv2, hkv2, he⟩ := List.mem_map.mp hkv
        rw [← he]
        exact h1 kv2 hkv2)
      (by
        intro kv hkv
        exact hwx kv (List.mem_filter.mp hkv).1) none]
    rw [hres, if_neg hne]

/-- Witness for C2 at a concrete input: associating `/a/t.params.json` (inside
the workspace, so stored relative) with `/a/t.json` on a clean user-global
store, then resolving, returns the parameters path. -/
theorem C2_witness :
    findMappedParamFileForTemplate
        (setMappedParamFileForTemplate (fun _ => true) ⟨.obj [], .unset⟩
          "/a/t.json" (some "/a/t.params.json")) "/a/t.json"
      = some (pathNormalize "/a/t.params.json") :=
  C2_amended (fun _ => true) [] .unset [['a']] ['t', '.', 'j', 's', 'o', 'n']
    "/a/t.json" "/a/t.params.json" (by decide) (by decide) (by decide) rfl trivial

end ArmTools
